import Mathlib

/-!
# Verification of the habit-tracking bot core (src/bot.py)

Shallow embedding of the pure core of `src/bot.py`:

* Python `dict`s are modelled as insertion-ordered association lists
  (`List (K × V)`): lookup returns the value of the first matching key,
  assignment overwrites the first matching key in place or appends a new
  entry at the end — exactly the observable behaviour of a CPython dict,
  whose keys are unique and insertion-ordered.
* Calendar dates are modelled by their proleptic-Gregorian ordinal
  (Python's `date.toordinal()`): the `"YYYYMMDD"` date-key strings used by
  the code are an injective, order-preserving encoding of calendar dates,
  so a date key is represented by the ordinal of the date it encodes.
  `date.weekday()` of an ordinal `d` is `(d + 6) % 7` (Monday = 0), since
  ordinal 1 (0001-01-01) is a Monday.
* A habit's `start_date` field is a `"YYYYMMDD"` string that the code
  parses at each use site, falling back to the global floor `START_DATE`
  on a `ValueError`; it is modelled as `Option Nat` — `some d` for a
  string that parses to the date with ordinal `d`, `none` for a malformed
  string (the `except ValueError` branches).
-/

set_option autoImplicit false

namespace BotHabit

universe u v

variable {K : Type u} {V : Type v}

/-- Lookup in an insertion-ordered association list (Python `dict[k]` /
`dict.get(k)`): the value at the first matching key. -/
def alookup [DecidableEq K] (k : K) : List (K × V) → Option V
  | [] => none
  | (a, b) :: t => if a = k then some b else alookup k t

/-- Assignment `dict[k] = v`: overwrite the first entry with key `k`,
or append a new entry at the end if `k` is absent. -/
def dictIns [DecidableEq K] : List (K × V) → K → V → List (K × V)
  | [], k, v => [(k, v)]
  | (a, b) :: t, k, v => if a = k then (k, v) :: t else (a, b) :: dictIns t k v

/-- One habit's cache record `{"name": ..., "start_date": ...}`
(`DataCache.habits` values, bot.py line 112). -/
structure HabitRec where
  name : String
  start : Option Nat
  deriving DecidableEq, Repr

/-- `DataCache.habits`: `{habit_id: {"name": str, "start_date": str}}`. -/
abbrev Habits := List (String × HabitRec)

/-- One day's bucket `{habit_id: bool}` inside `DataCache.stats`. -/
abbrev DayBucket := List (String × Bool)

/-- `DataCache.stats`: `{date: {habit_id: bool}}`, dates as ordinals. -/
abbrev Stats := List (Nat × DayBucket)

/-- `START_DATE = datetime.date(2025, 9, 27)` (bot.py line 98), as its
proleptic-Gregorian ordinal: `date(2025, 9, 27).toordinal() = 739521`. -/
def START_DATE : Nat := 739521

/-- The start date the code effectively uses for a habit: the parsed
`start_date`, or `START_DATE` when parsing raises `ValueError`
(the `try/except` at bot.py lines 324-327, 371-376, 401-411, 472-482). -/
def effStart (h : HabitRec) : Nat := h.start.getD START_DATE

/-- `data[date][habit_id]` as an optional value: `some s` iff the day
bucket exists and holds an entry for the habit. -/
def statLookup (data : Stats) (d : Nat) (hid : String) : Option Bool :=
  (alookup d data).bind (alookup hid)

/-- The test `date_str in data and h_id in data[date_str] and data[date_str][h_id]`
(bot.py lines 340, 350): true iff a record exists and is `True`. -/
def statTrue (data : Stats) (d : Nat) (hid : String) : Bool :=
  (statLookup data d hid).getD false

/-- `DataCache.update_stat` (bot.py lines 222-227): create the day bucket
if absent, then set the habit's boolean. -/
def update_stat : Stats → Nat → String → Bool → Stats
  | [], d, h, s => [(d, [(h, s)])]
  | (d', b) :: t, d, h, s =>
      if d' = d then (d', dictIns b h s) :: t else (d', b) :: update_stat t d h s

/-! ## Streak engine (`calc_streaks`, bot.py lines 308-359) -/

/-- The result record `{"current": int, "best": int}` per habit. -/
structure Streaks where
  current : Nat
  best : Nat
  deriving DecidableEq, Repr

/-- The calendar days `[a, a+1, ..., b-1]` walked by the
`while current_date < today` loop (bot.py lines 335-347). -/
def daysRange (a b : Nat) : List Nat := List.range' a (b - a)

/-- One iteration of the historical walk (bot.py lines 339-345):
increment the running streak on a true record and push `best` up,
reset to zero on a false or missing record. -/
def streakStep (data : Stats) (hid : String) (acc : Nat × Nat) (d : Nat) :
    Nat × Nat :=
  if statTrue data d hid then
    (acc.1 + 1, if acc.1 + 1 > acc.2 then acc.1 + 1 else acc.2)
  else
    (0, acc.2)

/-- The per-habit body of `calc_streaks` (bot.py lines 329-356): walk the
days from the habit's effective start date up to (but not including)
`today`, then fold in today's record separately — today increments the
counter when true but never resets it. -/
def streaksFor (data : Stats) (hid : String) (h : HabitRec) (today : Nat) :
    Streaks :=
  let w := (daysRange (effStart h) today).foldl (streakStep data hid) (0, 0)
  if statTrue data today hid then
    ⟨w.1 + 1, if w.1 + 1 > w.2 then w.1 + 1 else w.2⟩
  else
    ⟨w.1, w.2⟩

/-- `calc_streaks` (bot.py lines 308-359): results are written into a
dict keyed by **habit name** (`results[habit_name] = streaks`, line 357). -/
def calc_streaks (data : Stats) (habits : Habits) (today : Nat) :
    List (String × Streaks) :=
  habits.foldl (fun acc p => dictIns acc p.2.name (streaksFor data p.1 p.2 today)) []

/-! ## Week/day classification (`is_week_gold`, `day_status_emoji`) -/

/-- `date.weekday()` for an ordinal: Monday = 0. -/
def weekday (d : Nat) : Nat := (d + 6) % 7

/-- `monday = date - timedelta(days=date.weekday())` (bot.py line 363). -/
def mondayOf (d : Nat) : Nat := d - weekday d

/-- `is_week_gold` (bot.py lines 361-378): for each of the 7 days of the
Monday-starting week, the day must have a bucket, and every habit whose
effective start date is on or before that day must have a true record. -/
def is_week_gold (date : Nat) (data : Stats) (habits : Habits) : Bool :=
  (List.range 7).all fun i =>
    let d := mondayOf date + i
    match alookup d data with
    | none => false
    | some bucket =>
        habits.all fun p =>
          if effStart p.2 ≤ d then (alookup p.1 bucket).getD false else true

/-- `total_active` at a date (bot.py lines 398-411): the number of habits
whose effective start date is on or before the date. -/
def countActive (habits : Habits) (date : Nat) : Nat :=
  habits.countP fun p => effStart p.2 ≤ date

/-- `done` at a date (bot.py lines 398-411): the number of active habits
with a true record in the day's bucket. -/
def countDone (habits : Habits) (date : Nat) (bucket : DayBucket) : Nat :=
  habits.countP fun p => effStart p.2 ≤ date && (alookup p.1 bucket).getD false

/-- `day_status_emoji` (bot.py lines 380-423). `today` is
`datetime.date.today()`, passed explicitly. -/
def day_status_emoji (date : Nat) (data : Stats) (habits : Habits)
    (today : Nat) : String :=
  if date < START_DATE then ""
  else if is_week_gold date data habits then "⭐"
  else
    match alookup date data with
    | none => if date < today then "🔴" else ""
    | some bucket =>
        let total_active := countActive habits date
        let done := countDone habits date bucket
        if total_active = 0 then ""
        else if done = 0 then (if date < today then "🔴" else "")
        else if done = total_active then "🟢"
        else "🟡"

/-! ## Toggle (`callback_handler`, `toggle_` branch, bot.py lines 610-622) -/

/-- One toggle event: read the current status from the stats snapshot with
`data.get(date_str, {}).get(habit_id, False)` (absent counts as `False`),
invert it, and write it back through `update_stat`. -/
def toggleStat (data : Stats) (d : Nat) (hid : String) : Stats :=
  update_stat data d hid (!statTrue data d hid)

/-! ## Cache / Store / synchronization (`_sync_to_db`, `load_from_db`) -/

/-- The in-memory part of `DataCache`: the two mappings. -/
structure Cache where
  habits : Habits
  stats : Stats
  deriving DecidableEq, Repr

/-- The durable store: the `habits` table rows `(id, name, start_date)`
and the `stats` table rows `(date, habit_id, status)`. -/
structure Store where
  habitRows : Habits
  statRows : List (Nat × String × Bool)
  deriving DecidableEq, Repr

/-- The `stats` rows `_sync_to_db` inserts (bot.py lines 158-164): for each
date bucket in iteration order, one row per `(habit_id, status)` entry. -/
def statRowsOf : Stats → List (Nat × String × Bool)
  | [] => []
  | (d, b) :: t => b.map (fun q => (d, q.1, q.2)) ++ statRowsOf t

/-- The store contents after a successful `_sync_to_db` (bot.py lines
145-166): both tables deleted and re-filled from the cache. -/
def syncStore (c : Cache) : Store :=
  ⟨c.habits, statRowsOf c.stats⟩

/-- The habits reconstruction of `load_from_db` (bot.py lines 181-185):
`self.habits = {}` then `self.habits[str(id)] = {...}` per row. -/
def loadHabits (rows : Habits) : Habits :=
  rows.foldl (fun acc r => dictIns acc r.1 r.2) []

/-- The stats reconstruction of `load_from_db` (bot.py lines 188-194):
`self.stats = {}` then, per row, create the date bucket if absent and set
`self.stats[date][str(habit_id)] = bool(status)` — the same per-entry
logic as `update_stat`. -/
def loadStats (rows : List (Nat × String × Bool)) : Stats :=
  rows.foldl (fun acc r => update_stat acc r.1 r.2.1 r.2.2) []

/-- The cache contents after `load_from_db` reads a store. -/
def loadCache (st : Store) : Cache :=
  ⟨loadHabits st.habitRows, loadStats st.statRows⟩

/-! ### Transaction model for `_sync_to_db` (bot.py lines 138-172)

`with psycopg2.connect(...) as conn:` wraps the block in a transaction:
if any statement raises, the transaction is rolled back and the store
keeps its prior contents; `conn.commit()` (line 166) publishes the
pending writes, and only after it does line 167 advance `last_sync`.
The outer `try/except` catches the exception and merely logs it. -/

/-- One SQL statement issued by `_sync_to_db`. -/
inductive DbOp where
  | delHabits : DbOp
  | insHabit : String × HabitRec → DbOp
  | delStats : DbOp
  | insStat : Nat × String × Bool → DbOp
  deriving DecidableEq, Repr

/-- Effect of one statement on the (pending, uncommitted) store state. -/
def applyOp (st : Store) : DbOp → Store
  | .delHabits => { st with habitRows := [] }
  | .insHabit r => { st with habitRows := st.habitRows ++ [r] }
  | .delStats => { st with statRows := [] }
  | .insStat r => { st with statRows := st.statRows ++ [r] }

/-- The statement sequence of `_sync_to_db` (bot.py lines 150-164):
`DELETE FROM habits`, one `INSERT` per habit, `DELETE FROM stats`,
one `INSERT` per stat row. -/
def syncOps (c : Cache) : List DbOp :=
  DbOp.delHabits :: (c.habits.map DbOp.insHabit
    ++ DbOp.delStats :: ((statRowsOf c.stats).map DbOp.insStat))

/-- Run the statement list inside the transaction against the committed
store. `failAt = some j` means the `j`-th remaining statement raises:
the transaction rolls back and `none` is returned. Reaching the end of
the list is the `conn.commit()`: the pending state becomes committed. -/
def runTx : Store → List DbOp → Option Nat → Option Store
  | st, [], _ => some st
  | _, _ :: _, some 0 => none
  | st, op :: rest, some (j + 1) => runTx (applyOp st op) rest (some j)
  | st, op :: rest, none => runTx (applyOp st op) rest none

/-- Whole-system state for the sync: the in-memory cache, the committed
store contents, and `DataCache.last_sync`. -/
structure Sys where
  cache : Cache
  store : Store
  lastSync : Nat
  deriving DecidableEq, Repr

/-- `_sync_to_db` (bot.py lines 138-172): run the transaction; on failure
the `with` block rolls back and the `except` branch only logs, so cache,
store and `last_sync` are all left as they were; on success the committed
store is the fresh snapshot and `last_sync` is advanced (line 167). -/
def sync_to_db (s : Sys) (now : Nat) (failAt : Option Nat) : Sys :=
  match runTx s.store (syncOps s.cache) failAt with
  | none => s
  | some st => { s with store := st, lastSync := now }

/-! ### Lock model for `load_from_db` (claim about torn reads)

`DataCache`'s reading and writing accessors (`get_habits_full`,
`get_stats`, `add_habit`, `update_stat`, bot.py lines 202-227) each run
inside `with self.lock`. `load_from_db` (lines 174-200), however, assigns
`self.habits = ...` (lines 182-185) and later `self.stats = ...` (lines
189-194) with **no** `with self.lock` anywhere in its body, so its two
mapping replacements are two separate unlocked writes. -/

/-- Whether each accessor's mapping access runs under `with self.lock`,
read off the source: `load_from_db` has no lock acquisition. -/
def load_from_db_locked : Bool := false

/-- `add_habit` (bot.py lines 217-220) mutates under `with self.lock`. -/
def add_habit_locked : Bool := true

/-- `update_stat` (bot.py lines 222-227) mutates under `with self.lock`. -/
def update_stat_locked : Bool := true

/-- The in-memory writes of `load_from_db` at assignment granularity: the
habits mapping is replaced first (lines 182-185), the stats mapping
second (lines 189-194). -/
def loadWrites (newHabits : Habits) (newStats : Stats) : List (Cache → Cache) :=
  [fun c => { c with habits := newHabits }, fun c => { c with stats := newStats }]

/-- The cache state visible after the first `i` writes of `load_from_db`
have executed — what a concurrent reader observes when it runs at that
point (nothing prevents it, since the writes hold no lock). -/
def loadMidState (c : Cache) (newHabits : Habits) (newStats : Stats)
    (i : Nat) : Cache :=
  ((loadWrites newHabits newStats).take i).foldl (fun st f => f st) c

/-! ## Add-habit text handling (`handle_text`, bot.py lines 646-687) -/

/-- Gregorian leap year (as used by `datetime.date`). -/
def isLeap (y : Nat) : Bool := y % 4 = 0 && (y % 100 ≠ 0 || y % 400 = 0)

/-- Days in a month, per the Gregorian calendar that `datetime` checks
against. -/
def daysInMonth (y m : Nat) : Nat :=
  if m = 2 then (if isLeap y then 29 else 28)
  else if m = 4 ∨ m = 6 ∨ m = 9 ∨ m = 11 then 30
  else 31

/-- Python `str.strip()`: drop leading and trailing whitespace. Strings are
handled as their character lists throughout the text-handling model. -/
def pyStrip (l : List Char) : List Char :=
  ((l.dropWhile Char.isWhitespace).reverse.dropWhile Char.isWhitespace).reverse

/-- Python `str.split(sep)` for a one-character separator: always returns at
least one (possibly empty) part; adjacent separators produce empty parts. -/
def pySplit (c : Char) : List Char → List (List Char)
  | [] => [[]]
  | x :: t =>
      if x = c then [] :: pySplit c t
      else
        match pySplit c t with
        | h :: r => (x :: h) :: r
        | [] => [[x]]

/-- All characters are ASCII digits. -/
def allDigits (l : List Char) : Bool := l.all Char.isDigit

/-- Numeric value of a digit string. -/
def digitsToNat (l : List Char) : Nat :=
  l.foldl (fun acc c => acc * 10 + (c.toNat - '0'.toNat)) 0

/-- `datetime.date(y, m, d).toordinal()`: days before year `y`, plus days
before month `m` in year `y`, plus `d`. -/
def toOrdinal (y m d : Nat) : Nat :=
  let beforeYear := 365 * (y - 1) + ((y - 1) / 4 + (y - 1) / 400 - (y - 1) / 100)
  let beforeMonth := (List.range' 1 (m - 1)).foldl (fun acc mm => acc + daysInMonth y mm) 0
  beforeYear + beforeMonth + d

/-- `datetime.datetime.strptime(s, "%d.%m.%Y").date()` (bot.py line 666):
`%d` matches one or two digits with value 1-31, `%m` one or two digits
with value 1-12, `%Y` exactly four digits, separated by literal dots
with nothing left over; the constructed date must exist (day within the
month, year at least 1). Returns the date's ordinal, or `none` where
Python raises `ValueError`. -/
def parseDDMMYYYY (s : List Char) : Option Nat :=
  match pySplit '.' s with
  | [ds, ms, ys] =>
      if allDigits ds && allDigits ms && allDigits ys
          && 1 ≤ ds.length && ds.length ≤ 2
          && 1 ≤ ms.length && ms.length ≤ 2
          && ys.length = 4 then
        let d := digitsToNat ds
        let m := digitsToNat ms
        let y := digitsToNat ys
        if 1 ≤ m && m ≤ 12 && 1 ≤ d && d ≤ daysInMonth y m && 1 ≤ y then
          some (toOrdinal y m d)
        else none
      else none
  | _ => none

/-- The bot's reply in the add-habit flow. -/
inductive AddReply where
  | dateError : AddReply
  | added : String → AddReply
  deriving DecidableEq, Repr

/-- The `waiting_habit` branch of `handle_text` (bot.py lines 654-687):
split the stripped text on `"/"`; with exactly two parts, parse the
second as `dd.mm.yyyy` — on `ValueError` send the error message and
return **without touching the cache**; otherwise (or with no date part)
add the habit under id `str(len(habits_full) + 1)`. The empty-parts case
is unreachable (`str.split` never returns an empty list). -/
def handle_text (habits : Habits) (text : String) (today : Nat) :
    Habits × AddReply :=
  match pySplit '/' (pyStrip text.toList) with
  | [n, ds] =>
      match parseDDMMYYYY (pyStrip ds) with
      | none => (habits, .dateError)
      | some d =>
          (dictIns habits (toString (habits.length + 1))
            ⟨String.mk (pyStrip n), some d⟩, .added (String.mk (pyStrip n)))
  | n :: _ =>
      (dictIns habits (toString (habits.length + 1))
        ⟨String.mk (pyStrip n), some today⟩, .added (String.mk (pyStrip n)))
  | [] => (habits, .added "")

/-! ## Association-list lemmas -/

theorem alookup_dictIns_self [DecidableEq K] (l : List (K × V)) (k : K) (v : V) :
    alookup k (dictIns l k v) = some v := by
  induction l with
  | nil => simp [alookup, dictIns]
  | cons p t ih =>
      obtain ⟨a, b⟩ := p
      by_cases hak : a = k
      · simp [alookup, dictIns, hak]
      · simp [alookup, dictIns, hak, ih]

theorem alookup_dictIns_ne [DecidableEq K] (l : List (K × V)) (k k' : K) (v : V)
    (h : k' ≠ k) : alookup k' (dictIns l k v) = alookup k' l := by
  induction l with
  | nil => simp [alookup, dictIns, Ne.symm h]
  | cons p t ih =>
      obtain ⟨a, b⟩ := p
      by_cases hak : a = k
      · subst hak
        simp [alookup, dictIns, Ne.symm h]
      · by_cases hak' : a = k'
        · subst hak'
          simp [alookup, dictIns, hak]
        · simp [alookup, dictIns, hak, hak', ih]

theorem alookup_eq_none_of_not_mem [DecidableEq K] (l : List (K × V)) (k : K)
    (h : k ∉ l.map Prod.fst) : alookup k l = none := by
  induction l with
  | nil => rfl
  | cons p t ih =>
      obtain ⟨a, b⟩ := p
      simp only [List.map_cons, List.mem_cons] at h
      push_neg at h
      simp [alookup, Ne.symm h.1, ih h.2]

theorem alookup_update_stat_self (s : Stats) (d : Nat) (h : String) (v : Bool) :
    alookup d (update_stat s d h v) =
      some (dictIns ((alookup d s).getD []) h v) := by
  induction s with
  | nil => simp [alookup, update_stat, dictIns]
  | cons p t ih =>
      obtain ⟨d', b⟩ := p
      by_cases hd : d' = d
      · simp [alookup, update_stat, hd]
      · simp [alookup, update_stat, hd, ih]

theorem alookup_update_stat_ne (s : Stats) (d d' : Nat) (h : String) (v : Bool)
    (hne : d' ≠ d) : alookup d' (update_stat s d h v) = alookup d' s := by
  induction s with
  | nil => simp [alookup, update_stat, Ne.symm hne]
  | cons p t ih =>
      obtain ⟨d₀, b⟩ := p
      by_cases h₀ : d₀ = d
      · subst h₀
        simp [alookup, update_stat, Ne.symm hne]
      · by_cases h₁ : d₀ = d'
        · subst h₁
          simp [alookup, update_stat, h₀]
        · simp [alookup, update_stat, h₀, h₁, ih]

theorem statLookup_update_stat_self (s : Stats) (d : Nat) (h : String) (v : Bool) :
    statLookup (update_stat s d h v) d h = some v := by
  simp [statLookup, alookup_update_stat_self, alookup_dictIns_self]

theorem statLookup_update_stat_ne (s : Stats) (d d' : Nat) (h h' : String)
    (v : Bool) (hne : d' ≠ d ∨ h' ≠ h) :
    statLookup (update_stat s d h v) d' h' = statLookup s d' h' := by
  by_cases hd : d' = d
  · subst hd
    have hh : h' ≠ h := hne.resolve_left (by simp)
    simp [statLookup, alookup_update_stat_self, alookup_dictIns_ne _ _ _ _ hh]
    cases alookup d' s <;> simp [alookup]
  · simp [statLookup, alookup_update_stat_ne _ _ _ _ _ hd]

/-! ## Streak-walk lemmas -/

theorem streakStep_eq (data : Stats) (hid : String) (c m d : Nat) :
    streakStep data hid (c, m) d =
      if statTrue data d hid then (c + 1, max m (c + 1)) else (0, m) := by
  simp only [streakStep]
  split
  · have : (if c + 1 > m then c + 1 else m) = max m (c + 1) := by
      split <;> omega
    rw [this]
  · rfl

theorem run_true (data : Stats) (hid : String) :
    ∀ (n a c m : Nat), c ≤ m →
      (∀ i, i < n → statTrue data (a + i) hid = true) →
      (List.range' a n).foldl (streakStep data hid) (c, m) =
        (c + n, max m (c + n)) := by
  intro n
  induction n with
  | zero =>
      intro a c m hcm _
      simp [Nat.max_eq_left hcm]
  | succ n ih =>
      intro a c m hcm htrue
      rw [List.range'_succ]
      have h0 : statTrue data a hid = true := by
        have := htrue 0 (Nat.succ_pos n)
        simpa using this
      simp only [List.foldl_cons, streakStep_eq, h0, if_true]
      rw [ih (a + 1) (c + 1) (max m (c + 1)) (Nat.le_max_right _ _)
        (fun i hi => by
          have := htrue (i + 1) (by omega)
          simpa [Nat.add_assoc, Nat.add_comm 1 i] using this)]
      simp only [Prod.mk.injEq]
      constructor <;> omega

theorem run_false (data : Stats) (hid : String) :
    ∀ (n a c m : Nat),
      (∀ i, i < n → statTrue data (a + i) hid = false) →
      (List.range' a n).foldl (streakStep data hid) (c, m) =
        ((if n = 0 then c else 0), m) := by
  intro n
  induction n with
  | zero => intro a c m _; simp
  | succ n ih =>
      intro a c m hfalse
      rw [List.range'_succ]
      have h0 : statTrue data a hid = false := by
        have := hfalse 0 (Nat.succ_pos n)
        simpa using this
      simp only [List.foldl_cons, streakStep_eq, h0, if_false, Bool.false_eq_true]
      rw [ih (a + 1) 0 m (fun i hi => by
        have := hfalse (i + 1) (by omega)
        simpa [Nat.add_assoc, Nat.add_comm 1 i] using this)]
      split <;> rfl

theorem calc_streaks_singleton (data : Stats) (hid : String) (h : HabitRec)
    (today : Nat) :
    calc_streaks data [(hid, h)] today =
      [(h.name, streaksFor data hid h today)] := by
  simp [calc_streaks, dictIns]

/-! ## Claim theorems -/

/-- C1: for a habit with a valid start date `S` whose only true records are
exactly the `k` consecutive days `S, ..., S+k-1` (and which has no other
records), `calc_streaks` reports `best = k` whenever today is `S+k` or
later; and when today is exactly `S+k-1` it reports `current = best = k`. -/
theorem calc_streaks_true_run (data : Stats) (hid name : String)
    (S k today : Nat) (hk : 1 ≤ k)
    (hdata : ∀ d, statTrue data d hid = true ↔ (S ≤ d ∧ d < S + k)) :
    (S + k ≤ today →
      ∃ c, alookup name (calc_streaks data [(hid, ⟨name, some S⟩)] today) =
        some ⟨c, k⟩) ∧
    (today + 1 = S + k →
      alookup name (calc_streaks data [(hid, ⟨name, some S⟩)] today) =
        some ⟨k, k⟩) := by
  have hstart : effStart ⟨name, some S⟩ = S := rfl
  constructor
  · intro htoday
    have hsplit : daysRange S today =
        List.range' S k ++ List.range' (S + k) (today - (S + k)) := by
      rw [daysRange, show today - S = (today - (S + k)) + k by omega]
      exact (List.range'_append_1 S k (today - (S + k))).symm
    have hfold : (daysRange S today).foldl (streakStep data hid) (0, 0) =
        ((if today - (S + k) = 0 then k else 0), k) := by
      rw [hsplit, List.foldl_append,
        run_true data hid k S 0 0 (Nat.le_refl 0)
          (fun i hi => (hdata (S + i)).mpr ⟨Nat.le_add_right _ _, by omega⟩),
        run_false data hid (today - (S + k)) (S + k) (0 + k) (max 0 (0 + k))
          (fun i hi => by
            rcases hst : statTrue data (S + k + i) hid with _ | _
            · rfl
            · exfalso
              have := (hdata (S + k + i)).mp hst
              omega)]
      simp only [Prod.mk.injEq]
      constructor
      · split <;> omega
      · omega
    have htodayf : statTrue data today hid = false := by
      rcases hst : statTrue data today hid with _ | _
      · rfl
      · exfalso
        have := (hdata today).mp hst
        omega
    rw [calc_streaks_singleton]
    simp only [streaksFor, hstart, hfold, htodayf, Bool.false_eq_true, if_false]
    exact ⟨(if today - (S + k) = 0 then k else 0), by simp [alookup]⟩
  · intro htoday
    obtain ⟨t, rfl⟩ : ∃ t, k = t + 1 := ⟨k - 1, by omega⟩
    have hfold : (daysRange S today).foldl (streakStep data hid) (0, 0) =
        (t, t) := by
      rw [show daysRange S today = List.range' S t by
          rw [daysRange]; congr 1; omega,
        run_true data hid t S 0 0 (Nat.le_refl 0)
          (fun i hi => (hdata (S + i)).mpr ⟨Nat.le_add_right _ _, by omega⟩)]
      simp only [Prod.mk.injEq]
      constructor <;> omega
    have htodayt : statTrue data today hid = true :=
      (hdata today).mpr ⟨by omega, by omega⟩
    rw [calc_streaks_singleton]
    simp only [streaksFor, hstart, hfold, htodayt, if_true]
    have hgt : t + 1 > t := Nat.lt_succ_self t
    simp [alookup, hgt]

/-- C1 witness: a one-day true run (`k = 1`) starting at the floor date,
with today the following day: `best = 1`. -/
theorem calc_streaks_true_run_witness :
    (∀ d, statTrue [(739521, [("1", true)])] d "1" = true ↔
      (739521 ≤ d ∧ d < 739521 + 1)) ∧
    (∃ c, alookup "A" (calc_streaks [(739521, [("1", true)])]
      [("1", ⟨"A", some 739521⟩)] 739522) = some ⟨c, 1⟩) := by
  have hdata : ∀ d, statTrue [(739521, [("1", true)])] d "1" = true ↔
      (739521 ≤ d ∧ d < 739521 + 1) := by
    intro d
    by_cases hd : d = 739521
    · subst hd
      decide
    · have hnone : alookup d [(739521, [("1", true)])] = none := by
        simp [alookup, Ne.symm hd]
      simp [statTrue, statLookup, hnone]
      omega
  exact ⟨hdata,
    (calc_streaks_true_run [(739521, [("1", true)])] "1" "A" 739521 1 739522
      (by decide) hdata).1 (by decide)⟩

/-- C3 counterexample: a habit whose `start_date` (ordinal 739601) is
strictly after today (739600), with a true record for today, gets
`current = best = 1` from `calc_streaks`, not `current = best = 0`: the
separate today fold-in (bot.py lines 350-353) never consults
`start_date`. -/
theorem calc_streaks_future_start_cx :
    alookup "A" (calc_streaks [(739600, [("1", true)])]
      [("1", ⟨"A", some 739601⟩)] 739600) = some ⟨1, 1⟩ ∧
    (⟨1, 1⟩ : Streaks) ≠ ⟨0, 0⟩ := by decide

/-- C3 amended: days strictly before a habit's start date never enter the
historical walk — for a habit whose effective start date is strictly
after today the walk is empty — but the separate today fold-in ignores
`start_date`: such a habit gets `current = best = 1` when today has a
true record, and `current = best = 0` otherwise. -/
theorem calc_streaks_future_start_amended (data : Stats) (hid name : String)
    (st : Option Nat) (today : Nat) (h : today < effStart ⟨name, st⟩) :
    alookup name (calc_streaks data [(hid, ⟨name, st⟩)] today) =
      some (if statTrue data today hid then ⟨1, 1⟩ else ⟨0, 0⟩) := by
  rw [calc_streaks_singleton]
  have hr : daysRange (effStart ⟨name, st⟩) today = [] := by
    rw [daysRange, show today - effStart ⟨name, st⟩ = 0 by omega]
    rfl
  simp only [streaksFor, hr, List.foldl_nil]
  split <;> simp [alookup]

/-- C3 witness: the amended theorem applied at the counterexample input. -/
theorem calc_streaks_future_start_amended_witness :
    739600 < effStart ⟨"A", some 739601⟩ ∧
    alookup "A" (calc_streaks [(739600, [("1", true)])]
        [("1", ⟨"A", some 739601⟩)] 739600) =
      some (if statTrue [(739600, [("1", true)])] 739600 "1"
        then ⟨1, 1⟩ else ⟨0, 0⟩) :=
  ⟨by decide,
    calc_streaks_future_start_amended [(739600, [("1", true)])] "1" "A"
      (some 739601) 739600 (by decide)⟩

/-- C4: if any of the seven days of the Monday-starting week containing
`date` has no bucket at all in the stats mapping, `is_week_gold` is
false, whatever the habits and whatever the other days hold. -/
theorem is_week_gold_missing_day (date : Nat) (data : Stats)
    (habits : Habits) (i : Nat) (hi : i < 7)
    (hmiss : alookup (mondayOf date + i) data = none) :
    is_week_gold date data habits = false := by
  cases hg : is_week_gold date data habits with
  | false => rfl
  | true =>
      exfalso
      have h2 := List.all_eq_true.mp hg i (List.mem_range.mpr hi)
      simp only [hmiss] at h2
      exact Bool.false_ne_true h2

/-- C4 witness: an empty stats mapping is missing the Monday of the week
of day 739522, so that week is not gold. -/
theorem is_week_gold_missing_day_witness :
    (0 : Nat) < 7 ∧ alookup (mondayOf 739522 + 0) ([] : Stats) = none ∧
    is_week_gold 739522 [] [] = false :=
  ⟨by decide, by decide, is_week_gold_missing_day 739522 [] [] 0
    (by decide) (by decide)⟩

/-- C2 counterexample: day 739522 (≥ the floor date, week not gold) with
zero active habits, no stats bucket, and today later: `day_status_emoji`
returns the failure glyph, not "none" — the missing-bucket branch
(bot.py lines 391-394) runs before `total_active` is ever computed. -/
theorem day_status_zero_active_cx :
    countActive [] (START_DATE + 1) = 0 ∧
    day_status_emoji (START_DATE + 1) [] [] (START_DATE + 2) = "🔴" ∧
    ("🔴" : String) ≠ "" := by decide

/-- C2 amended: on a date at or after the floor whose week is not gold and
with zero active habits, `day_status_emoji` yields no glyph whenever the
date has a stats bucket, or has none but is not strictly in the past;
but a past date with no bucket yields the failure glyph even with zero
active habits. -/
theorem day_status_zero_active_amended (date : Nat) (data : Stats)
    (habits : Habits) (today : Nat) (hfloor : START_DATE ≤ date)
    (hgold : is_week_gold date data habits = false)
    (hact : countActive habits date = 0) :
    (∀ bucket, alookup date data = some bucket →
      day_status_emoji date data habits today = "") ∧
    (alookup date data = none → today ≤ date →
      day_status_emoji date data habits today = "") ∧
    (alookup date data = none → date < today →
      day_status_emoji date data habits today = "🔴") := by
  have hnl : ¬ date < START_DATE := Nat.not_lt.mpr hfloor
  refine ⟨?_, ?_, ?_⟩
  · intro bucket hb
    simp [day_status_emoji, hnl, hgold, hb, hact]
  · intro hb ht
    simp [day_status_emoji, hnl, hgold, hb, Nat.not_lt.mpr ht]
  · intro hb ht
    simp [day_status_emoji, hnl, hgold, hb, ht]

/-- C2 witness: the amended theorem's bucket clause at a concrete day that
has an (empty) bucket, zero habits, and lies in the past. -/
theorem day_status_zero_active_amended_witness :
    START_DATE ≤ START_DATE + 1 ∧
    is_week_gold (START_DATE + 1) [(START_DATE + 1, [])] [] = false ∧
    countActive [] (START_DATE + 1) = 0 ∧
    day_status_emoji (START_DATE + 1) [(START_DATE + 1, [])] []
      (START_DATE + 2) = "" :=
  ⟨by decide, by decide, by decide,
    (day_status_zero_active_amended (START_DATE + 1) [(START_DATE + 1, [])]
      [] (START_DATE + 2) (by decide) (by decide) (by decide)).1 []
      (by decide)⟩

/-! ## Round-trip lemmas (`_sync_to_db` then `load_from_db`) -/

theorem alookup_foldl_dictIns {K : Type u} {V : Type v} [DecidableEq K] :
    ∀ (l acc : List (K × V)) (k : K),
      (l.map Prod.fst).Nodup →
      alookup k (l.foldl (fun a p => dictIns a p.1 p.2) acc) =
        match alookup k l with
        | some v => some v
        | none => alookup k acc := by
  intro l
  induction l with
  | nil => intro acc k _; simp [alookup]
  | cons p t ih =>
      intro acc k hnd
      obtain ⟨a, b⟩ := p
      simp only [List.map_cons, List.nodup_cons] at hnd
      simp only [List.foldl_cons]
      rw [ih (dictIns acc a b) k hnd.2]
      by_cases hk : a = k
      · subst hk
        rw [alookup_eq_none_of_not_mem t a hnd.1]
        simp [alookup, alookup_dictIns_self]
      · rw [alookup_dictIns_ne acc a k b (Ne.symm hk)]
        simp only [alookup, hk, if_false]

theorem statLookup_foldl_block :
    ∀ (b : DayBucket) (acc : Stats) (d0 : Nat) (h : String),
      (b.map Prod.fst).Nodup →
      statLookup (b.foldl (fun a q => update_stat a d0 q.1 q.2) acc) d0 h =
        match alookup h b with
        | some v => some v
        | none => statLookup acc d0 h := by
  intro b
  induction b with
  | nil => intro acc d0 h _; simp [alookup]
  | cons q t ih =>
      intro acc d0 h hnd
      obtain ⟨h0, v0⟩ := q
      simp only [List.map_cons, List.nodup_cons] at hnd
      simp only [List.foldl_cons]
      rw [ih (update_stat acc d0 h0 v0) d0 h hnd.2]
      by_cases hh : h0 = h
      · subst hh
        rw [alookup_eq_none_of_not_mem t h0 hnd.1]
        simp [alookup, statLookup_update_stat_self]
      · rw [statLookup_update_stat_ne acc d0 d0 h0 h v0 (Or.inr (Ne.symm hh))]
        simp only [alookup, hh, if_false]

theorem statLookup_foldl_other :
    ∀ (rows : List (Nat × String × Bool)) (acc : Stats) (d : Nat) (h : String),
      (∀ r ∈ rows, r.1 ≠ d) →
      statLookup (rows.foldl (fun a r => update_stat a r.1 r.2.1 r.2.2) acc) d h =
        statLookup acc d h := by
  intro rows
  induction rows with
  | nil => intro acc d h _; rfl
  | cons r t ih =>
      intro acc d h hne
      simp only [List.foldl_cons]
      rw [ih _ d h (fun r' hr' => hne r' (List.mem_cons_of_mem r hr')),
        statLookup_update_stat_ne acc r.1 d r.2.1 h r.2.2
          (Or.inl (Ne.symm (hne r (List.mem_cons_self r t))))]

theorem statLookup_loadStats :
    ∀ (stats acc : Stats) (d : Nat) (h : String),
      (stats.map Prod.fst).Nodup →
      (∀ p ∈ stats, (p.2.map Prod.fst).Nodup) →
      statLookup ((statRowsOf stats).foldl
          (fun a r => update_stat a r.1 r.2.1 r.2.2) acc) d h =
        match statLookup stats d h with
        | some v => some v
        | none => statLookup acc d h := by
  intro stats
  induction stats with
  | nil => intro acc d h _ _; simp [statRowsOf, statLookup, alookup]
  | cons p rest ih =>
      intro acc d h hnd hB
      obtain ⟨d0, b⟩ := p
      simp only [List.map_cons, List.nodup_cons] at hnd
      simp only [statRowsOf, List.foldl_append, List.foldl_map]
      by_cases hd : d0 = d
      · subst hd
        have hrest : statLookup rest d0 h = none := by
          simp [statLookup, alookup_eq_none_of_not_mem rest d0 hnd.1]
        rw [ih _ d0 h hnd.2 (fun p hp => hB p (List.mem_cons_of_mem _ hp)), hrest]
        rw [statLookup_foldl_block b acc d0 h
          (hB (d0, b) (List.mem_cons_self _ _))]
        have hcons : statLookup ((d0, b) :: rest) d0 h = alookup h b := by
          simp [statLookup, alookup]
        rw [hcons]
      · have hcons : statLookup ((d0, b) :: rest) d h = statLookup rest d h := by
          simp [statLookup, alookup, hd]
        rw [ih _ d h hnd.2 (fun p hp => hB p (List.mem_cons_of_mem _ hp)), hcons]
        have hblock : statLookup
            (b.foldl (fun a q => update_stat a d0 q.1 q.2) acc) d h =
            statLookup acc d h := by
          have hother := statLookup_foldl_other
            (b.map (fun q => (d0, q.1, q.2))) acc d h
            (by
              intro r hr
              simp only [List.mem_map] at hr
              obtain ⟨q, _, rfl⟩ := hr
              exact hd)
          rw [List.foldl_map] at hother
          exact hother
        rw [hblock]

/-- C5: a successful `_sync_to_db` followed by `load_from_db` with no
intervening mutation reproduces the habits mapping and the stats mapping
exactly: every habit id maps to the same record, and every
`(date, habit_id)` pair maps to the same optional status — hence the sets
of `(id, name, start_date)` and `(date, habit_id, status)` triples are
unchanged. The hypotheses are the dict invariants (unique keys), which
every Python dict satisfies. -/
theorem sync_load_roundtrip (habits : Habits) (stats : Stats)
    (hH : (habits.map Prod.fst).Nodup)
    (hS : (stats.map Prod.fst).Nodup)
    (hB : ∀ p ∈ stats, (p.2.map Prod.fst).Nodup) :
    (∀ i, alookup i (loadCache (syncStore ⟨habits, stats⟩)).habits =
      alookup i habits) ∧
    (∀ d h, statLookup (loadCache (syncStore ⟨habits, stats⟩)).stats d h =
      statLookup stats d h) := by
  constructor
  · intro i
    show alookup i (loadHabits habits) = alookup i habits
    rw [loadHabits, alookup_foldl_dictIns habits [] i hH]
    cases alookup i habits <;> rfl
  · intro d h
    show statLookup (loadStats (statRowsOf stats)) d h = statLookup stats d h
    rw [loadStats, statLookup_loadStats stats [] d h hS hB]
    cases statLookup stats d h <;> rfl

/-- C5 witness: the round trip at a concrete cache with one habit and two
day buckets, checked at the habit's id and at one `(date, habit)` pair. -/
theorem sync_load_roundtrip_witness :
    (([("1", (⟨"Read", some 739521⟩ : HabitRec))].map Prod.fst).Nodup) ∧
    (([(739521, [("1", true)]), (739522, [("1", false), ("2", true)])].map
      (Prod.fst (α := Nat) (β := DayBucket))).Nodup) ∧
    alookup "1" (loadCache (syncStore ⟨[("1", ⟨"Read", some 739521⟩)],
      [(739521, [("1", true)]), (739522, [("1", false), ("2", true)])]⟩)).habits =
      alookup "1" [("1", ⟨"Read", some 739521⟩)] ∧
    statLookup (loadCache (syncStore ⟨[("1", ⟨"Read", some 739521⟩)],
      [(739521, [("1", true)]), (739522, [("1", false), ("2", true)])]⟩)).stats
        739522 "2" =
      statLookup [(739521, [("1", true)]), (739522, [("1", false), ("2", true)])]
        739522 "2" :=
  ⟨by decide, by decide,
    (sync_load_roundtrip [("1", ⟨"Read", some 739521⟩)]
      [(739521, [("1", true)]), (739522, [("1", false), ("2", true)])]
      (by decide) (by decide) (by decide)).1 "1",
    (sync_load_roundtrip [("1", ⟨"Read", some 739521⟩)]
      [(739521, [("1", true)]), (739522, [("1", false), ("2", true)])]
      (by decide) (by decide) (by decide)).2 739522 "2"⟩

/-! ## Transaction lemmas (`_sync_to_db` atomicity) -/

theorem runTx_fail : ∀ (ops : List DbOp) (st : Store) (k : Nat),
    k < ops.length → runTx st ops (some k) = none := by
  intro ops
  induction ops with
  | nil => intro st k hk; simp at hk
  | cons op rest ih =>
      intro st k hk
      cases k with
      | zero => rfl
      | succ j =>
          simp only [List.length_cons] at hk
          exact ih (applyOp st op) j (by omega)

theorem runTx_commit : ∀ (ops : List DbOp) (st : Store),
    runTx st ops none = some (ops.foldl applyOp st) := by
  intro ops
  induction ops with
  | nil => intro st; rfl
  | cons op rest ih => intro st; simp only [runTx, List.foldl_cons]; exact ih _

theorem foldl_insHabit : ∀ (l : Habits) (st : Store),
    (l.map DbOp.insHabit).foldl applyOp st =
      { st with habitRows := st.habitRows ++ l } := by
  intro l
  induction l with
  | nil => intro st; simp
  | cons r t ih =>
      intro st
      simp only [List.map_cons, List.foldl_cons, applyOp]
      rw [ih]
      simp

theorem foldl_insStat : ∀ (l : List (Nat × String × Bool)) (st : Store),
    (l.map DbOp.insStat).foldl applyOp st =
      { st with statRows := st.statRows ++ l } := by
  intro l
  induction l with
  | nil => intro st; simp
  | cons r t ih =>
      intro st
      simp only [List.map_cons, List.foldl_cons, applyOp]
      rw [ih]
      simp

theorem foldl_syncOps (c : Cache) (st : Store) :
    (syncOps c).foldl applyOp st = syncStore c := by
  simp only [syncOps, List.foldl_cons, List.foldl_append, applyOp]
  rw [foldl_insHabit]
  simp only [List.foldl_cons, applyOp]
  rw [foldl_insStat]
  simp [syncStore]

/-- C6: `_sync_to_db` is atomic: if any statement of the delete-and-
reinsert raises (any failure index inside the statement list), the whole
system state is unchanged — committed store, in-memory cache and
`last_sync` all keep their prior values; and on a successful run the
cache is untouched, the committed store is exactly the cache snapshot,
and `last_sync` is advanced, only after the commit. -/
theorem sync_to_db_atomic (s : Sys) (now k : Nat)
    (hk : k < (syncOps s.cache).length) :
    sync_to_db s now (some k) = s ∧
    (sync_to_db s now none).cache = s.cache ∧
    (sync_to_db s now none).store = syncStore s.cache ∧
    (sync_to_db s now none).lastSync = now := by
  refine ⟨?_, ?_, ?_, ?_⟩ <;>
    simp [sync_to_db, runTx_fail _ _ _ hk, runTx_commit, foldl_syncOps]

/-- C6 witness: a failure at the very first statement (`DELETE FROM
habits`) leaves a concrete system state — store with stale rows, cache
with fresh data, old `last_sync` — exactly as it was. -/
theorem sync_to_db_atomic_witness :
    (0 < (syncOps ⟨[("1", ⟨"R", some 739521⟩)],
      [(739521, [("1", true)])]⟩).length) ∧
    sync_to_db ⟨⟨[("1", ⟨"R", some 739521⟩)], [(739521, [("1", true)])]⟩,
        ⟨[], [(5, "x", true)]⟩, 7⟩ 99 (some 0) =
      ⟨⟨[("1", ⟨"R", some 739521⟩)], [(739521, [("1", true)])]⟩,
        ⟨[], [(5, "x", true)]⟩, 7⟩ :=
  ⟨by decide,
    (sync_to_db_atomic ⟨⟨[("1", ⟨"R", some 739521⟩)],
      [(739521, [("1", true)])]⟩, ⟨[], [(5, "x", true)]⟩, 7⟩ 99 0
      (by decide)).1⟩

/-- C7: `load_from_db` holds no lock while it replaces the two mappings
(`load_from_db_locked = false`, read off bot.py lines 174-200, which
contain no `with self.lock`), and after its first write — with the
second still pending — the cache visible to a concurrent reader holds
the new habits mapping together with the **old** stats mapping, which
differs from the new one: a torn update across the two mappings. -/
theorem load_from_db_unlocked_torn :
    load_from_db_locked = false ∧
    loadMidState ⟨[], [(739521, [("1", true)])]⟩
        [("1", ⟨"A", some 739521⟩)] [] 1 =
      ⟨[("1", ⟨"A", some 739521⟩)], [(739521, [("1", true)])]⟩ ∧
    ([] : Stats) ≠ [(739521, [("1", true)])] := by decide

/-! ## Length/key lemmas for the name-keyed result mapping -/

theorem dictIns_length_le {K : Type u} {V : Type v} [DecidableEq K]
    (acc : List (K × V)) (k : K) (v : V) :
    (dictIns acc k v).length ≤ acc.length + 1 := by
  induction acc with
  | nil => simp [dictIns]
  | cons p t ih =>
      obtain ⟨a, b⟩ := p
      by_cases hak : a = k
      · simp [dictIns, hak]
      · simp only [dictIns, hak, if_false, List.length_cons]
        omega

theorem dictIns_length_mem {K : Type u} {V : Type v} [DecidableEq K]
    (acc : List (K × V)) (k : K) (v : V) (hm : k ∈ acc.map Prod.fst) :
    (dictIns acc k v).length = acc.length := by
  induction acc with
  | nil => simp at hm
  | cons p t ih =>
      obtain ⟨a, b⟩ := p
      by_cases hak : a = k
      · simp [dictIns, hak]
      · simp only [List.map_cons, List.mem_cons] at hm
        rcases hm with hm | hm
        · exact absurd hm.symm hak
        · simp [dictIns, hak, ih hm]

theorem mem_keys_dictIns_self {K : Type u} {V : Type v} [DecidableEq K]
    (acc : List (K × V)) (k : K) (v : V) :
    k ∈ (dictIns acc k v).map Prod.fst := by
  induction acc with
  | nil => simp [dictIns]
  | cons p t ih =>
      obtain ⟨a, b⟩ := p
      by_cases hak : a = k <;> simp [dictIns, hak, ih]

theorem mem_keys_dictIns_mono {K : Type u} {V : Type v} [DecidableEq K]
    (acc : List (K × V)) (k k' : K) (v : V) (hm : k' ∈ acc.map Prod.fst) :
    k' ∈ (dictIns acc k v).map Prod.fst := by
  induction acc with
  | nil => simp at hm
  | cons p t ih =>
      obtain ⟨a, b⟩ := p
      simp only [List.map_cons, List.mem_cons] at hm
      by_cases hak : a = k
      · subst hak
        rcases hm with hm | hm <;> simp [dictIns, hm]
      · rcases hm with hm | hm
        · simp [dictIns, hak, hm]
        · simp [dictIns, hak, ih hm]

theorem foldl_dictIns_length {K : Type u} {V : Type v} [DecidableEq K] :
    ∀ (l acc : List (K × V)),
      (l.foldl (fun a p => dictIns a p.1 p.2) acc).length ≤
        acc.length + l.length := by
  intro l
  induction l with
  | nil => intro acc; simp
  | cons p t ih =>
      intro acc
      simp only [List.foldl_cons, List.length_cons]
      have h1 := ih (dictIns acc p.1 p.2)
      have h2 := dictIns_length_le acc p.1 p.2
      omega

theorem foldl_mem_keys_mono {K : Type u} {V : Type v} [DecidableEq K] :
    ∀ (l acc : List (K × V)) (k : K), k ∈ acc.map Prod.fst →
      k ∈ (l.foldl (fun a p => dictIns a p.1 p.2) acc).map Prod.fst := by
  intro l
  induction l with
  | nil => intro acc k hm; exact hm
  | cons p t ih =>
      intro acc k hm
      exact ih _ k (mem_keys_dictIns_mono acc p.1 k p.2 hm)

theorem alookup_foldl_no_key {K : Type u} {V : Type v} [DecidableEq K] :
    ∀ (l acc : List (K × V)) (k : K), (∀ p ∈ l, p.1 ≠ k) →
      alookup k (l.foldl (fun a p => dictIns a p.1 p.2) acc) =
        alookup k acc := by
  intro l
  induction l with
  | nil => intro acc k _; rfl
  | cons p t ih =>
      intro acc k hk
      simp only [List.foldl_cons]
      rw [ih _ k (fun p hp => hk p (List.mem_cons_of_mem _ hp)),
        alookup_dictIns_ne acc p.1 k p.2
          (Ne.symm (hk p (List.mem_cons_self _ _)))]

/-- C10: `calc_streaks` keys its result by habit name: when two distinct
habits (here at two arbitrary positions of the habits mapping, with no
later habit reusing the name) share one name, the result holds a single
entry for that name containing the metrics of the later-iterated habit,
and the result has strictly fewer entries than there are habits. -/
theorem calc_streaks_keyed_by_name (data : Stats) (today : Nat)
    (pre mid post : Habits) (id1 id2 n : String) (s1 s2 : Option Nat)
    (hpost : ∀ p ∈ post, (p : String × HabitRec).2.name ≠ n) :
    alookup n (calc_streaks data
        (pre ++ (id1, ⟨n, s1⟩) :: mid ++ (id2, ⟨n, s2⟩) :: post) today) =
      some (streaksFor data id2 ⟨n, s2⟩ today) ∧
    (calc_streaks data
        (pre ++ (id1, ⟨n, s1⟩) :: mid ++ (id2, ⟨n, s2⟩) :: post)
        today).length <
      (pre ++ (id1, ⟨n, s1⟩) :: mid ++ (id2, ⟨n, s2⟩) :: post).length := by
  have hmap : ∀ (habits : Habits),
      calc_streaks data habits today =
        (habits.map (fun p => (p.2.name, streaksFor data p.1 p.2 today))).foldl
          (fun a p => dictIns a p.1 p.2) [] := by
    intro habits
    rw [List.foldl_map]
    rfl
  set nv : String × HabitRec → String × Streaks :=
    fun p => (p.2.name, streaksFor data p.1 p.2 today) with hnv
  rw [hmap]
  simp only [List.map_append, List.map_cons]
  set preL := pre.map nv
  set midL := mid.map nv
  set postL := post.map nv
  have hv1 : nv (id1, ⟨n, s1⟩) = (n, streaksFor data id1 ⟨n, s1⟩ today) := rfl
  have hv2 : nv (id2, ⟨n, s2⟩) = (n, streaksFor data id2 ⟨n, s2⟩ today) := rfl
  rw [hv1, hv2]
  rw [List.foldl_append, List.foldl_cons, List.foldl_append, List.foldl_cons]
  set acc0 := preL.foldl (fun a p => dictIns a p.1 p.2)
    ([] : List (String × Streaks))
  set acc1 := midL.foldl (fun a p => dictIns a p.1 p.2)
    (dictIns acc0 n (streaksFor data id1 ⟨n, s1⟩ today))
  have hpostkeys : ∀ p ∈ postL, (p : String × Streaks).1 ≠ n := by
    intro p hp
    simp only [postL, List.mem_map] at hp
    obtain ⟨q, hq, rfl⟩ := hp
    exact hpost q hq
  constructor
  · rw [alookup_foldl_no_key postL _ n hpostkeys,
      alookup_dictIns_self acc1 n (streaksFor data id2 ⟨n, s2⟩ today)]
  · have hkey : n ∈ acc1.map Prod.fst :=
      foldl_mem_keys_mono midL _ n (mem_keys_dictIns_self acc0 n _)
    have hlen2 : (dictIns acc1 n (streaksFor data id2 ⟨n, s2⟩ today)).length =
        acc1.length := dictIns_length_mem acc1 n _ hkey
    have hlen3 : (postL.foldl (fun a p => dictIns a p.1 p.2)
        (dictIns acc1 n (streaksFor data id2 ⟨n, s2⟩ today))).length ≤
        (dictIns acc1 n (streaksFor data id2 ⟨n, s2⟩ today)).length +
          postL.length :=
      foldl_dictIns_length postL _
    have hlen1 : acc1.length ≤
        (dictIns acc0 n (streaksFor data id1 ⟨n, s1⟩ today)).length +
          midL.length :=
      foldl_dictIns_length midL _
    have hlen0 : acc0.length ≤ 0 + preL.length :=
      foldl_dictIns_length preL ([] : List (String × Streaks))
    have hlenIns : (dictIns acc0 n
        (streaksFor data id1 ⟨n, s1⟩ today)).length ≤ acc0.length + 1 :=
      dictIns_length_le acc0 n _
    have hpre : preL.length = pre.length := List.length_map _ _
    have hmid : midL.length = mid.length := List.length_map _ _
    have hpost' : postL.length = post.length := List.length_map _ _
    simp only [List.length_append, List.length_cons]
    omega

/-- C10 witness: two habits with ids "1" and "2" both named "A": the
result keeps only habit "2"'s metrics under "A" and has one entry for
two habits. -/
theorem calc_streaks_keyed_by_name_witness :
    (∀ p ∈ ([] : Habits), (p : String × HabitRec).2.name ≠ "A") ∧
    alookup "A" (calc_streaks []
        [("1", ⟨"A", some 739521⟩), ("2", ⟨"A", some 739522⟩)] 739600) =
      some (streaksFor [] "2" ⟨"A", some 739522⟩ 739600) ∧
    (calc_streaks []
        [("1", ⟨"A", some 739521⟩), ("2", ⟨"A", some 739522⟩)]
        739600).length <
      ([("1", ⟨"A", some 739521⟩), ("2", ⟨"A", some 739522⟩)] :
        Habits).length :=
  ⟨by decide,
    (calc_streaks_keyed_by_name [] 739600 [] [] [] "1" "2" "A"
      (some 739521) (some 739522) (by decide)).1,
    (calc_streaks_keyed_by_name [] 739600 [] [] [] "1" "2" "A"
      (some 739521) (some 739522) (by decide)).2⟩

/-- C9: toggling the same `(date, habit_id)` pair twice returns that pair's
status (with an absent record counting as `false`) to its original value,
and leaves every other `(date, habit_id)` entry's record unchanged. -/
theorem toggle_twice_restores (s : Stats) (d : Nat) (hid : String) :
    statTrue (toggleStat (toggleStat s d hid) d hid) d hid = statTrue s d hid ∧
    ∀ d' h', d' ≠ d ∨ h' ≠ hid →
      statLookup (toggleStat (toggleStat s d hid) d hid) d' h' =
        statLookup s d' h' := by
  have h1 : statLookup (toggleStat s d hid) d hid = some (!statTrue s d hid) :=
    statLookup_update_stat_self s d hid (!statTrue s d hid)
  have h2 : statTrue (toggleStat s d hid) d hid = !statTrue s d hid := by
    simp [statTrue, h1]
  constructor
  · simp [statTrue, toggleStat, statLookup_update_stat_self, h2]
  · intro d' h' hne
    rw [toggleStat, statLookup_update_stat_ne _ _ _ _ _ _ hne, toggleStat,
      statLookup_update_stat_ne _ _ _ _ _ _ hne]

/-- C9 witness: the double-toggle theorem applied at a concrete cache with
one day bucket holding two habits, checking the toggled pair and an
untouched neighbour entry. -/
theorem toggle_twice_restores_witness :
    statTrue (toggleStat (toggleStat [(5, [("1", true), ("2", false)])] 5 "1")
        5 "1") 5 "1" =
      statTrue [(5, [("1", true), ("2", false)])] 5 "1" ∧
    statLookup (toggleStat (toggleStat [(5, [("1", true), ("2", false)])] 5 "1")
        5 "1") 5 "2" =
      statLookup [(5, [("1", true), ("2", false)])] 5 "2" :=
  ⟨(toggle_twice_restores [(5, [("1", true), ("2", false)])] 5 "1").1,
    (toggle_twice_restores [(5, [("1", true), ("2", false)])] 5 "1").2 5 "2"
      (Or.inr (by decide))⟩

/-- C8: when the add-habit text splits as `name/date` and the date part is
not a valid `dd.mm.yyyy` calendar date, `handle_text` replies with the
date-format error and leaves the habits mapping unchanged. -/
theorem add_habit_bad_date_rejected (habits : Habits) (text : String)
    (today : Nat) (n ds : List Char)
    (hsplit : pySplit '/' (pyStrip text.toList) = [n, ds])
    (hbad : parseDDMMYYYY (pyStrip ds) = none) :
    handle_text habits text today = (habits, AddReply.dateError) := by
  simp only [handle_text]
  rw [hsplit]
  simp [hbad]

/-- C8 witness: the concrete rejected input `"Meditate/01.13.2025"`
(month 13 is invalid), applied to an empty habits mapping. -/
theorem add_habit_bad_date_rejected_witness :
    pySplit '/' (pyStrip "Meditate/01.13.2025".toList) =
      ["Meditate".toList, "01.13.2025".toList] ∧
    parseDDMMYYYY (pyStrip "01.13.2025".toList) = none ∧
    handle_text [] "Meditate/01.13.2025" 739521 = ([], AddReply.dateError) :=
  ⟨by decide, by decide,
    add_habit_bad_date_rejected [] "Meditate/01.13.2025" 739521
      "Meditate".toList "01.13.2025".toList (by decide) (by decide)⟩

end BotHabit
